import Mathlib

set_option maxRecDepth 4096

/-!
Shallow embedding of the pop65 two-pass 6502 assembler (Rust sources under
`src/`).  Machine integers are modelled as `Nat` with explicit `% 2 ^ 16`
(resp. `% 256`) where the Rust code wraps; fallible Rust code returns
`Except String`; a Rust panic is modelled as the `none` of an enclosing
`Option`.  File I/O, the listing builder and the `.dbg` debug-string
machinery are not modelled: no claim below touches them, and no modelled
program uses the directives that drive them.
-/

namespace Pop65

/-- A single-quote character, used when building the error strings of the
Rust sources (which quote symbol names). -/
def sq : String := String.singleton (Char.ofNat 39)

/-- One uppercase hexadecimal digit, as produced by Rust `{:X}` formatting. -/
def hexDigit (n : Nat) : Char :=
  if n < 10 then Char.ofNat (48 + n) else Char.ofNat (55 + n)

/-- Digit loop for `hexU`; the first argument is fuel (structural). -/
def hexUGo : Nat → Nat → List Char
  | 0, _ => []
  | fuel + 1, n => if n = 0 then [] else hexUGo fuel (n / 16) ++ [hexDigit (n % 16)]

/-- Rust `format!("{:X}", n)`: uppercase hex, no padding, `0` prints as `0`. -/
def hexU (n : Nat) : String :=
  if n = 0 then "0" else String.mk (hexUGo (n + 1) n)

/-- Rust `format!("{:04X}", n)`: uppercase hex zero-padded to width 4. -/
def hex4 (n : Nat) : String :=
  let s := hexU n
  String.mk (List.replicate (4 - s.length) (Char.ofNat 48)) ++ s

/-- `source.rs` `LineSlice`: a span of one source line.  The Rust struct
stores the shared line plus char positions (and derived byte indices); here
the line's text, path and number are stored inline. -/
structure Slice where
  line_text : String
  path : String
  line_num : Nat
  start_char : Nat
  end_char : Nat
deriving DecidableEq, Repr

/-- `LineSlice::text`: the chars of the underlying line between
`start_char` (inclusive) and `end_char` (exclusive), clamped like the Rust
byte-index computation. -/
def Slice.text (s : Slice) : String :=
  String.mk ((s.line_text.toList.drop s.start_char).take (s.end_char - s.start_char))

/-- `LineSlice::pos`: `path:line:col` with `col = start_char + 1`. -/
def Slice.pos (s : Slice) : String :=
  s.path ++ ":" ++ toString s.line_num ++ ":" ++ toString (s.start_char + 1)

/-- `LineSlice::err`'s message: the slice's `pos()` as a header. -/
def Slice.errMsg (s : Slice) (msg : String) : String :=
  s.pos ++ ": " ++ msg

/-- `LineSlice::join`: smallest start and largest end on the same line. -/
def Slice.join (a b : Slice) : Slice :=
  { a with start_char := min a.start_char b.start_char,
           end_char := max a.end_char b.end_char }

/-- `opcode.rs` `AMode`: a 6502 addressing mode. -/
inductive AMode where
  | Imm | Imp | Zp | ZpX | ZpY | Abs | AbsX | AbsY | Ind | IndX | IndY | Rel
deriving DecidableEq, Repr

/-- `AMode::byte_size`. -/
def AMode.byte_size : AMode → Nat
  | .Imm => 2
  | .Imp => 1
  | .Zp => 2
  | .ZpX => 2
  | .ZpY => 2
  | .Abs => 3
  | .AbsX => 3
  | .AbsY => 3
  | .Ind => 3
  | .IndX => 2
  | .IndY => 2
  | .Rel => 2

/-- The `Display` impl for `AMode` (used in pass-1 error messages). -/
def AMode.display : AMode → String
  | .Imm => "immediate"
  | .Imp => "implied"
  | .Zp => "zero page"
  | .ZpX => "zero page, x indexed"
  | .ZpY => "zero page, y indexed"
  | .Abs => "absolute"
  | .AbsX => "absolute, x indexed"
  | .AbsY => "absolute, y indexed"
  | .Ind => "indirect"
  | .IndX => "x indirect"
  | .IndY => "y indirect"
  | .Rel => "relative"

/-- `opcode.rs` `Op`: the opcode-byte map of one mnemonic.  The Rust
`HashMap<AMode, u8>` (distinct keys) is modelled as an association list. -/
structure Op where
  op_bytes : List (AMode × Nat)
deriving DecidableEq, Repr

/-- `HashMap::get` on `op_bytes`. -/
def Op.find (op : Op) (a : AMode) : Option Nat :=
  (op.op_bytes.find? (fun p => p.1 = a)).map (fun p => p.2)

/-- `OP_TABLE["lda"]`, verbatim from the table literal. -/
def ldaOp : Op :=
  ⟨[(.Imm, 169), (.Zp, 165), (.ZpX, 181), (.Abs, 173), (.AbsX, 189),
    (.AbsY, 185), (.IndX, 161), (.IndY, 177)]⟩

/-- `OP_TABLE["beq"]`. -/
def beqOp : Op := ⟨[(.Rel, 240)]⟩

/-- `OP_TABLE["jmp"]`. -/
def jmpOp : Op := ⟨[(.Abs, 76), (.Ind, 108)]⟩

/-- `expr.rs` `RelOp`. -/
inductive RelOp where
  | Less | Great | Equ | Nequ | LessEqu | GreatEqu
deriving DecidableEq, Repr

/-- `expr.rs` `ExprNode`/`ExLab`.  The Rust pair
`ExprNode { label : ExLab, slice }` is flattened: each constructor carries
the node's slice as its last argument. -/
inductive ExprNode where
  | Name (slice : Slice)
  | Num (i : Nat) (slice : Slice)
  | Add (l r : ExprNode) (slice : Slice)
  | Sub (l r : ExprNode) (slice : Slice)
  | Mul (l r : ExprNode) (slice : Slice)
  | Div (l r : ExprNode) (slice : Slice)
  | Mod (l r : ExprNode) (slice : Slice)
  | Neg (e : ExprNode) (slice : Slice)
  | Hi (e : ExprNode) (slice : Slice)
  | Lo (e : ExprNode) (slice : Slice)
  | Expr (e : ExprNode) (slice : Slice)
  | Str (s : String) (slice : Slice)
  | RelOp (op : RelOp) (l r : ExprNode) (slice : Slice)

/-- The `slice` field of an `ExprNode`. -/
def ExprNode.slice : ExprNode → Slice
  | .Name sl => sl
  | .Num _ sl => sl
  | .Add _ _ sl => sl
  | .Sub _ _ sl => sl
  | .Mul _ _ sl => sl
  | .Div _ _ sl => sl
  | .Mod _ _ sl => sl
  | .Neg _ sl => sl
  | .Hi _ sl => sl
  | .Lo _ sl => sl
  | .Expr _ sl => sl
  | .Str _ sl => sl
  | .RelOp _ _ _ sl => sl

/-- The slice of assembler state `ExprNode::eval` reads: the value of each
symbol (`None` both for a missing entry and for an undefined one, exactly
what `Assembler::lookup` followed by `.value` yields).  The
reference-recording side effect of `lookup` inside `eval` does not affect
any evaluated value and is modelled only where a claim depends on it
(`Assembler.def_symbol`). -/
abbrev Ctx := String → Option Nat

/-- `ExprNode::eval`.  `none` models a Rust panic: `wrapping_div` /
`wrapping_rem` panic on a zero divisor.  All u16 arithmetic wraps
(`% 2 ^ 16`); on u16 values `wrapping_div` is plain division. -/
def ExprNode.eval : ExprNode → Ctx → Option (Except String Nat)
  | .Name sl, ctx =>
    match ctx sl.text with
    | some v => some (.ok v)
    | none => some (.error (sl.errMsg (sq ++ sl.text ++ sq ++ " undefined")))
  | .Num i _, _ => some (.ok i)
  | .Add l r _, ctx =>
    match l.eval ctx with
    | none => none
    | some (.error m) => some (.error m)
    | some (.ok a) =>
      match r.eval ctx with
      | none => none
      | some (.error m) => some (.error m)
      | some (.ok b) => some (.ok ((a + b) % 65536))
  | .Sub l r _, ctx =>
    match l.eval ctx with
    | none => none
    | some (.error m) => some (.error m)
    | some (.ok a) =>
      match r.eval ctx with
      | none => none
      | some (.error m) => some (.error m)
      | some (.ok b) => some (.ok ((a % 65536 + 65536 - b % 65536) % 65536))
  | .Mul l r _, ctx =>
    match l.eval ctx with
    | none => none
    | some (.error m) => some (.error m)
    | some (.ok a) =>
      match r.eval ctx with
      | none => none
      | some (.error m) => some (.error m)
      | some (.ok b) => some (.ok ((a * b) % 65536))
  | .Div l r _, ctx =>
    match l.eval ctx with
    | none => none
    | some (.error m) => some (.error m)
    | some (.ok a) =>
      match r.eval ctx with
      | none => none
      | some (.error m) => some (.error m)
      | some (.ok b) => if b = 0 then none else some (.ok (a / b))
  | .Mod l r _, ctx =>
    match l.eval ctx with
    | none => none
    | some (.error m) => some (.error m)
    | some (.ok a) =>
      match r.eval ctx with
      | none => none
      | some (.error m) => some (.error m)
      | some (.ok b) => if b = 0 then none else some (.ok (a % b))
  | .Neg e _, ctx =>
    match e.eval ctx with
    | none => none
    | some (.error m) => some (.error m)
    | some (.ok a) => some (.ok ((65536 - a % 65536) % 65536))
  | .Hi e _, ctx =>
    match e.eval ctx with
    | none => none
    | some (.error m) => some (.error m)
    | some (.ok a) => some (.ok (a % 65536 / 256))
  | .Lo e _, ctx =>
    match e.eval ctx with
    | none => none
    | some (.error m) => some (.error m)
    | some (.ok a) => some (.ok (a % 256))
  | .Expr e _, ctx => e.eval ctx
  | .Str s sl, _ =>
    match s.utf8ByteSize with
    | 0 => some (.error (sl.errMsg "string must contain one character"))
    | 1 =>
      match s.toUTF8.toList with
      | b :: _ => some (.ok b.toNat)
      | [] => some (.error (sl.errMsg "string must contain one character"))
    | _ + 2 => some (.error (sl.errMsg "string must consist of one byte only"))
  | .RelOp op l r _, ctx =>
    match l.eval ctx with
    | none => none
    | some (.error m) => some (.error m)
    | some (.ok a) =>
      match r.eval ctx with
      | none => none
      | some (.error m) => some (.error m)
      | some (.ok b) =>
        let result : Bool :=
          match op with
          | .Less => a < b
          | .Great => b < a
          | .Equ => a = b
          | .Nequ => a ≠ b
          | .LessEqu => a ≤ b
          | .GreatEqu => b ≤ a
        if result then some (.ok 1) else some (.ok 0)

/-- `symbol.rs` `Symbol`.  The `references` `HashSet` is an insertion list
without duplicates.  The `comment` field is written by
`Assembler::def_label` and read by the library tests; it is missing from
the (stale) `symbol.rs` iteration under `src/` but present in the spec's
data model, so it is carried here. -/
structure Symbol where
  name : String
  value : Option Nat
  defined_at : Option Slice
  references : List Slice
  comment : Option String
deriving DecidableEq, Repr

/-- `Symbol::new`: undefined, with the first reference recorded. -/
def Symbol.new (name : String) (first_ref : Slice) : Symbol :=
  { name := name, value := none, defined_at := none,
    references := [first_ref], comment := none }

/-- `Symbol::add_ref` (`HashSet::insert`). -/
def Symbol.add_ref (s : Symbol) (ref : Slice) : Symbol :=
  if ref ∈ s.references then s else { s with references := ref :: s.references }

/-- `Symbol::define`: succeeds only when the symbol has no value yet; any
redefinition errors, naming the original definition site.  (The `unwrap` of
`defined_at` in the error arm is guarded by the value-iff-defined invariant;
it is rendered with `getD`.) -/
def Symbol.define (s : Symbol) (value : Nat) (defined_at : Slice) : Except String Symbol :=
  match s.value with
  | none =>
    let s1 := { s with value := some value, defined_at := some defined_at }
    .ok (s1.add_ref defined_at)
  | some _ =>
    .error (defined_at.errMsg (sq ++ s.name ++ sq ++ " redefined (orig. def. at "
      ++ ((s.defined_at.map Slice.pos).getD "") ++ ")"))

/-- `asm.rs` `Pass`. -/
inductive Pass where
  | None | Pass1 | Pass2
deriving DecidableEq, Repr

/-- Lookup in the symbol-table association list (`HashMap::get`). -/
def symFind (t : List (String × Symbol)) (n : String) : Option Symbol :=
  (t.find? (fun p => p.1 = n)).map (fun p => p.2)

/-- Store into the symbol-table association list (`HashMap::insert` /
mutation through `get_mut`). -/
def symSet : List (String × Symbol) → String → Symbol → List (String × Symbol)
  | [], n, s => [(n, s)]
  | (k, v) :: rest, n, s =>
    if k = n then (k, s) :: rest else (k, v) :: symSet rest n s

/-- A `Macro`: its replacement lines, each kept as raw text (`mac.rs`). -/
structure Macro where
  replacement_lines : List String
deriving DecidableEq, Repr

/-- `opcode.rs` `OpCode`: a source-line 6502 instruction. -/
structure OpCode where
  op : Op
  op_slice : Slice
  amode : AMode
  expr : Option ExprNode

/-- `OpCode::line_slice`. -/
def OpCode.line_slice (oc : OpCode) : Slice :=
  match oc.expr with
  | some e => oc.op_slice.join e.slice
  | none => oc.op_slice

/-- `OpCode::is_zp`: the operand expression exists and currently evaluates
to a value that fits in a byte.  `none` propagates a panic from `eval`. -/
def OpCode.is_zp (oc : OpCode) (ctx : Ctx) : Option Bool :=
  match oc.expr with
  | some e =>
    match e.eval ctx with
    | none => none
    | some (.ok v) => some (decide (v ≤ 255))
    | some (.error _) => some false
  | none => some false

/-- `OpCode::real_amode`: branch demotion `Abs → Rel`, zero-page shrinking
of `Abs`/`AbsX`/`AbsY`, identity elsewhere.  The `contains_key` test
short-circuits before `is_zp`, as in the Rust `&&`. -/
def OpCode.real_amode (oc : OpCode) (ctx : Ctx) : Option AMode :=
  match oc.amode with
  | .Imm => some .Imm
  | .Imp => some .Imp
  | .Zp => some .Zp
  | .ZpX => some .ZpX
  | .ZpY => some .ZpY
  | .Abs =>
    if (oc.op.find .Rel).isSome then some .Rel
    else if (oc.op.find .Zp).isSome then
      match oc.is_zp ctx with
      | none => none
      | some true => some .Zp
      | some false => some .Abs
    else some .Abs
  | .AbsX =>
    if (oc.op.find .ZpX).isSome then
      match oc.is_zp ctx with
      | none => none
      | some true => some .ZpX
      | some false => some .AbsX
    else some .AbsX
  | .AbsY =>
    if (oc.op.find .ZpY).isSome then
      match oc.is_zp ctx with
      | none => none
      | some true => some .ZpY
      | some false => some .AbsY
    else some .AbsY
  | .Ind => some .Ind
  | .IndX => some .IndX
  | .IndY => some .IndY
  | .Rel => some .Rel

/-- `OpCode::eval`: the operand bytes for the given (resolved) addressing
mode, with `pc` the program counter at the start of the instruction.  The
`none` results are the `panic!()` arms of the Rust `match` on
`byte_size - 1`; the value is treated as the u16 it is in Rust. -/
def OpCode.evalOperand (oc : OpCode) (amode : AMode) (ctx : Ctx) (pc : Nat) :
    Option (Except String (List Nat)) :=
  match oc.expr with
  | none => some (.ok [])
  | some e =>
    match e.eval ctx with
    | none => none
    | some (.error m) => some (.error m)
    | some (.ok val) =>
      if amode = .Rel then
        let here : Int := (pc : Int) + 2
        let there : Int := (val : Int)
        let offset : Int := there - here
        if -128 ≤ offset ∧ offset ≤ 127 then
          some (.ok [(offset.emod 256).toNat])
        else
          some (.error (oc.line_slice.errMsg ("offset " ++ toString offset ++ " out of range")))
      else
        match amode.byte_size - 1 with
        | 0 => none
        | 1 =>
          if val % 65536 / 256 = 0 then some (.ok [val % 256])
          else some (.error (oc.line_slice.errMsg ("value " ++ hex4 (val % 65536) ++ " out of range")))
        | 2 => some (.ok [val % 256, val % 65536 / 256])
        | _ + 3 => none

/-- `OpCode::pass1` (`Action` impl): resolve the addressing mode, check the
mnemonic supports it, return its byte size. -/
def OpCode.pass1 (oc : OpCode) (ctx : Ctx) : Option (Except String Nat) :=
  match oc.real_amode ctx with
  | none => none
  | some amode =>
    if (oc.op.find amode).isSome then some (.ok amode.byte_size)
    else
      some (.error (oc.line_slice.errMsg ("addressing mode " ++ sq ++ amode.display ++ sq
        ++ " not supported for " ++ sq ++ oc.op_slice.text ++ sq)))

/-- `OpCode::pass2`: operand bytes with the opcode byte prepended.  The
final `none` is the panicking `HashMap` index on a mode the mnemonic lacks. -/
def OpCode.pass2 (oc : OpCode) (ctx : Ctx) (pc : Nat) : Option (Except String (List Nat)) :=
  match oc.real_amode ctx with
  | none => none
  | some amode =>
    match oc.evalOperand amode ctx pc with
    | none => none
    | some (.error m) => some (.error m)
    | some (.ok bytes) =>
      match oc.op.find amode with
      | some b => some (.ok (b :: bytes))
      | none => none

/-- Rust `str::trim` (drop leading and trailing whitespace), computed on
the character list so that it evaluates definitionally. -/
def trimStr (s : String) : String :=
  String.mk (((s.toList.dropWhile fun c => c.isWhitespace).reverse.dropWhile
    fun c => c.isWhitespace).reverse)

/-- `pseudo.rs` `PseudoOp`.  `op_name_lcase` is the lowercased text of
`op_name`, as computed by `PseudoOp::new`. -/
structure PseudoOp where
  op_name : Slice
  op_name_lcase : String
  args : List ExprNode

/-- `PseudoOp::new`. -/
def PseudoOp.new (op_name : Slice) (args : List ExprNode) : PseudoOp :=
  { op_name := op_name, op_name_lcase := op_name.text.toLower, args := args }

/-- `PseudoOp::is_str_arg`: a string literal, possibly parenthesized. -/
def is_str_arg : ExprNode -> Option String
  | .Expr e _ => is_str_arg e
  | .Str s _ => some s
  | _ => none

/-- `PseudoOp::line_slice`. -/
def PseudoOp.line_slice (ps : PseudoOp) : Slice :=
  match ps.args.getLast? with
  | some last => ps.op_name.join last.slice
  | none => ps.op_name

/-- `PseudoOp::is_equ`. -/
def PseudoOp.is_equ (ps : PseudoOp) : Bool :=
  ps.op_name_lcase = "=" || ps.op_name_lcase = ".equ"

/-- `PseudoOp::is_if_affiliated`. -/
def PseudoOp.is_if_affiliated (ps : PseudoOp) : Bool :=
  ps.op_name_lcase = ".else" || ps.op_name_lcase = ".endif"

/-- `action.rs` `Action`, as the tagged sum of its modelled implementors.
`MacUsage` is not modelled (no modelled program invokes a macro as an
action); its parse-site behaviour is modelled separately below for C6. -/
inductive Action where
  | opcode : OpCode -> Action
  | pseudo : PseudoOp -> Action

/-- `Action::is_equ` (trait default `false`; overridden by `PseudoOp`). -/
def Action.is_equ : Action -> Bool
  | .opcode _ => false
  | .pseudo ps => ps.is_equ

/-- `Action::is_if_affiliated` (trait default `false`). -/
def Action.is_if_affiliated : Action -> Bool
  | .opcode _ => false
  | .pseudo ps => ps.is_if_affiliated

/-- `Action::is_macro_def`.  The recognizer lives in the final-iteration
trait code that is absent from `src/`; for the two modelled action kinds it
is `None` (only a `.mac` pseudo-op reports a name, and `.mac` is outside
the modelled fragment). -/
def Action.is_macro_def : Action -> Option String := fun _ => none

/-- `parse.rs` `ParsedLine` (the shared `line` handle is dropped: it only
feeds the unmodelled listing and error headers). -/
structure ParsedLine where
  label : Option Slice
  action : Option Action
  comment : Option Slice

/-- `ParsedLine::filter_comment`: strip the leading `;` and surrounding
whitespace, keep the comment only if non-empty. -/
def ParsedLine.filter_comment (p : ParsedLine) : Option String :=
  match p.comment with
  | some l =>
    let s := trimStr (String.mk (l.text.toList.drop 1))
    if s = "" then none else some s
  | none => none

/-- `asm.rs` `Assembler`: the driver state the claims depend on.  The
source stack, current line, listing buffers and debug-output fields
(`src_stk`, `cur_line`, `listing`, `listing_index`, `debug_fmt`,
`debug_str`) and the macro map are not modelled; no modelled program
includes files, requests a listing, or uses `.dbg`/`.mac`. -/
structure Asm where
  pass : Pass
  pc : Nat
  symtab : List (String × Symbol)
  parsed_lines : List ParsedLine
  building_comment : Option String
  errcount : Nat
  output_flag : Bool
  if_stack : List Bool

/-- `Assembler::new` (sans the unmodelled fields). -/
def Asm.new : Asm :=
  { pass := .None, pc := 0, symtab := [], parsed_lines := [],
    building_comment := none, errcount := 0, output_flag := true,
    if_stack := [] }

/-- The `Ctx` view of the symbol table that `ExprNode::eval` reads. -/
def Asm.symval (asm : Asm) : Ctx :=
  fun n => (symFind asm.symtab n).bind (fun s => s.value)

/-- `Assembler::lookup`: create the symbol as undefined on first sight,
record the reference, return the updated state and entry. -/
def Asm.lookup (asm : Asm) (name : String) (ref : Slice) : Asm × Symbol :=
  let sym0 :=
    match symFind asm.symtab name with
    | some s => s
    | none => Symbol.new name ref
  let sym := sym0.add_ref ref
  ({ asm with symtab := symSet asm.symtab name sym }, sym)

/-- `Assembler::def_symbol`.  The result is `none` for the
`Pass::None => panic!` arm; otherwise the (possibly mutated) state plus an
optional error message, since the Rust caller keeps the mutations made
before a `?` early return. -/
def Asm.def_symbol (asm : Asm) (name : String) (slice : Slice) (value : Nat) :
    Option (Asm × Option String) :=
  match asm.pass with
  | .None => none
  | .Pass1 =>
    let (asm1, sym) := asm.lookup name slice
    match sym.define value slice with
    | .ok sym1 => some ({ asm1 with symtab := symSet asm1.symtab name sym1 }, none)
    | .error m => some (asm1, some m)
  | .Pass2 =>
    let (asm1, sym) := asm.lookup name slice
    match sym.value with
    | some definition =>
      if definition = value then some (asm1, none)
      else
        some (asm1, some (slice.errMsg (sq ++ name ++ sq ++ " is " ++ hexU definition
          ++ " in pass1, " ++ hexU value ++ " in pass2")))
    | none =>
      some (asm1, some (slice.errMsg (sq ++ name ++ sq ++ " undefined in pass1, defined as "
        ++ hexU value ++ " in pass2")))

/-- `Assembler::def_label`: define the label at the current PC and attach
the comment.  The pass-1 debug-string branch is skipped because `debug_fmt`
is not modelled (no modelled program uses `.dbg`). -/
def Asm.def_label (asm : Asm) (label : String) (slice : Slice)
    (comment_label : Option String) : Option (Asm × Option String) :=
  let pc := asm.pc
  match asm.def_symbol label slice pc with
  | none => none
  | some (asm1, some m) => some (asm1, some m)
  | some (asm1, none) =>
    match comment_label with
    | none => some (asm1, none)
    | some c =>
      match symFind asm1.symtab label with
      | some sym =>
        some ({ asm1 with symtab := symSet asm1.symtab label { sym with comment := some c } },
          none)
      | none => none

/-- The `"=" | ".equ"` arm of `PseudoOp::pass1` (shared by both names). -/
def PseudoOp.equPass1 (ps : PseudoOp) (label : Option Slice) (asm : Asm) :
    Option (Asm × Except String Nat) :=
  if ps.args.length ≠ 1 then
    some (asm, .error (ps.line_slice.errMsg "incorrect number of arguments"))
  else
    match label with
    | some lbl =>
      match ps.args with
      | [a] =>
        match a.eval asm.symval with
        | none => none
        | some (.error m) => some (asm, .error m)
        | some (.ok value) =>
          match asm.def_symbol lbl.text lbl value with
          | none => none
          | some (asm1, some m) => some (asm1, .error m)
          | some (asm1, none) => some (asm1, .ok 0)
      | _ => some (asm, .error (ps.line_slice.errMsg "incorrect number of arguments"))
    | none => some (asm, .error (ps.line_slice.errMsg ("missing label for " ++ sq ++ "=" ++ sq)))

/-- `PseudoOp::pass1` (`Action` impl).  Modelled directives:
`.if .endif .else .assert .ds = .equ .org .byte .word .on .off`.  The
file-reading and debug directives (`.bin .incbin .inc .lib .fil .dbg`) are
outside the modelled fragment and fall through to the `bad pseudo-op` arm;
no modelled program uses them.  `none` propagates a panic from `eval`. -/
def PseudoOp.pass1 (ps : PseudoOp) (label : Option Slice) (asm : Asm) :
    Option (Asm × Except String Nat) :=
  match ps.op_name_lcase with
  | ".if" =>
    match ps.args with
    | [cond] =>
      match cond.eval asm.symval with
      | none => none
      | some (.error m) => some (asm, .error m)
      | some (.ok v) =>
        some ({ asm with if_stack := (decide (v ≠ 0)) :: asm.if_stack }, .ok 0)
    | _ => some (asm, .error (ps.line_slice.errMsg "incorrect number of arguments"))
  | ".endif" =>
    match asm.if_stack with
    | [] => some (asm, .error (ps.line_slice.errMsg "missing matching if"))
    | _ :: rest =>
      if ps.args.isEmpty then some ({ asm with if_stack := rest }, .ok 0)
      else some ({ asm with if_stack := rest }, .error (ps.line_slice.errMsg "no args on endif"))
  | ".else" =>
    match asm.if_stack with
    | [] => some (asm, .error (ps.line_slice.errMsg "missing matching if"))
    | t :: rest =>
      let asm1 := { asm with if_stack := (!t) :: rest }
      if ps.args.isEmpty then some (asm1, .ok 0)
      else some (asm1, .error (ps.line_slice.errMsg "no args on else"))
  | ".assert" => some (asm, .ok 0)
  | ".ds" =>
    match ps.args with
    | [n] =>
      match n.eval asm.symval with
      | none => none
      | some (.error m) => some (asm, .error m)
      | some (.ok v) => some (asm, .ok v)
    | [n, _] =>
      match n.eval asm.symval with
      | none => none
      | some (.error m) => some (asm, .error m)
      | some (.ok v) => some (asm, .ok v)
    | _ => some (asm, .error (ps.line_slice.errMsg "Expected one or two args"))
  | "=" =>
    PseudoOp.equPass1 ps label asm
  | ".equ" =>
    PseudoOp.equPass1 ps label asm
  | ".org" =>
    match ps.args with
    | [a] =>
      match a.eval asm.symval with
      | none => none
      | some (.error m) => some (asm, .error m)
      | some (.ok v) => some ({ asm with pc := v }, .ok 0)
    | _ => some (asm, .error (ps.line_slice.errMsg "incorrect number of arguments"))
  | ".byte" =>
    some (asm, .ok ((ps.args.foldl (fun sum arg =>
      match is_str_arg arg with
      | some s => sum + s.utf8ByteSize
      | none => sum + 1) 0) % 65536))
  | ".word" => some (asm, .ok (ps.args.length * 2 % 65536))
  | ".off" => some (asm, .ok 0)
  | ".on" => some (asm, .ok 0)
  | _ =>
    some (asm, .error (ps.line_slice.errMsg ("bad pseudo-op " ++ sq ++ ps.op_name.text ++ sq)))

/-- The argument loop of the `.byte` arm of `PseudoOp::pass2`. -/
def byteArgsPass2 (ctx : Ctx) : List ExprNode -> Option (Except String (List Nat))
  | [] => some (.ok [])
  | arg :: rest =>
    let headBytes : Option (Except String (List Nat)) :=
      match is_str_arg arg with
      | some s => some (.ok (s.toUTF8.toList.map (fun b => b.toNat)))
      | none =>
        match arg.eval ctx with
        | none => none
        | some (.error m) => some (.error m)
        | some (.ok v) => some (.ok [v % 256])
    match headBytes with
    | none => none
    | some (.error m) => some (.error m)
    | some (.ok bs) =>
      match byteArgsPass2 ctx rest with
      | none => none
      | some (.error m) => some (.error m)
      | some (.ok more) => some (.ok (bs ++ more))

/-- The argument loop of the `.word` arm of `PseudoOp::pass2`
(little-endian 16-bit pairs). -/
def wordArgsPass2 (ctx : Ctx) : List ExprNode -> Option (Except String (List Nat))
  | [] => some (.ok [])
  | arg :: rest =>
    match arg.eval ctx with
    | none => none
    | some (.error m) => some (.error m)
    | some (.ok v) =>
      match wordArgsPass2 ctx rest with
      | none => none
      | some (.error m) => some (.error m)
      | some (.ok more) => some (.ok ([v % 256, v % 65536 / 256] ++ more))

/-- `PseudoOp::pass2`.  Unknown names (including the unmodelled
file/debug directives) fall through to `pass1`, as in the Rust `_` arm. -/
def PseudoOp.pass2 (ps : PseudoOp) (asm : Asm) : Option (Asm × Except String (List Nat)) :=
  match ps.op_name_lcase with
  | ".if" => some (asm, .ok [])
  | ".else" => some (asm, .ok [])
  | ".endif" => some (asm, .ok [])
  | ".assert" =>
    match ps.args with
    | [a] =>
      match a.eval asm.symval with
      | none => none
      | some (.error m) => some (asm, .error m)
      | some (.ok v) =>
        if v = 0 then some (asm, .error (ps.line_slice.errMsg "assertion error"))
        else some (asm, .ok [])
    | _ => some (asm, .error (ps.line_slice.errMsg "incorrect number of arguments"))
  | ".on" => some ({ asm with output_flag := true }, .ok [])
  | ".off" => some ({ asm with output_flag := false }, .ok [])
  | ".ds" =>
    match ps.args with
    | [n] =>
      match n.eval asm.symval with
      | none => none
      | some (.error m) => some (asm, .error m)
      | some (.ok v) => some (asm, .ok (List.replicate v 0))
    | [n, fill] =>
      match fill.eval asm.symval with
      | none => none
      | some (.error m) => some (asm, .error m)
      | some (.ok f) =>
        match n.eval asm.symval with
        | none => none
        | some (.error m) => some (asm, .error m)
        | some (.ok v) => some (asm, .ok (List.replicate v (f % 256)))
    | _ => none
  | "=" => some (asm, .ok [])
  | ".equ" => some (asm, .ok [])
  | ".org" =>
    match ps.pass1 none asm with
    | none => none
    | some (asm1, .error m) => some (asm1, .error m)
    | some (asm1, .ok _) => some (asm1, .ok [])
  | ".byte" =>
    match byteArgsPass2 asm.symval ps.args with
    | none => none
    | some (.error m) => some (asm, .error m)
    | some (.ok bytes) => some (asm, .ok bytes)
  | ".word" =>
    match wordArgsPass2 asm.symval ps.args with
    | none => none
    | some (.error m) => some (asm, .error m)
    | some (.ok bytes) => some (asm, .ok bytes)
  | _ =>
    match ps.pass1 none asm with
    | none => none
    | some (asm1, .error m) => some (asm1, .error m)
    | some (asm1, .ok _) => some (asm1, .ok [])

/-- `Action::pass1` dispatch.  An opcode ignores the label and mutates no
modelled state in pass 1. -/
def Action.pass1 (a : Action) (label : Option Slice) (asm : Asm) :
    Option (Asm × Except String Nat) :=
  match a with
  | .opcode oc =>
    match oc.pass1 asm.symval with
    | none => none
    | some r => some (asm, r)
  | .pseudo ps => ps.pass1 label asm

/-- `Action::pass2` dispatch. -/
def Action.pass2 (a : Action) (asm : Asm) : Option (Asm × Except String (List Nat)) :=
  match a with
  | .opcode oc =>
    match oc.pass2 asm.symval asm.pc with
    | none => none
    | some r => some (asm, r)
  | .pseudo ps => ps.pass2 asm

/-- The conditional gating test of `Assembler::pass1_line`: the top of the
if-stack is `false` (an empty stack counts as `true`) and the line's action,
if any, is not if-affiliated.  The Rust `Vec` push/pop at the end is the
list cons/uncons at the head, so `last()` is `head?`. -/
def gatedOut (asm : Asm) (p : ParsedLine) : Bool :=
  !(asm.if_stack.head?.getD true) &&
    (match p.action with
     | some a => !a.is_if_affiliated
     | none => true)

/-- `Assembler::pass1_line` after parsing (the parse step, the `cur_line`
bookkeeping and the listing stub row are outside the modelled state).  A
gated-out line is skipped before anything else: it is not retained and the
state is untouched.  The result pairs the (possibly mutated) state with an
optional error, since the Rust driver keeps mutations made before a `?`
early return; `none` propagates a panic. -/
def pass1Parsed (asm : Asm) (p : ParsedLine) : Option (Asm × Option String) :=
  if gatedOut asm p then some (asm, none)
  else
    let comment := p.filter_comment
    let is_equ :=
      match p.action with
      | some a => a.is_equ
      | none => false
    let labelStep : Option (Asm × Option String) :=
      match p.label with
      | some lbl =>
        let taken :=
          match asm.building_comment with
          | some s => (some s, { asm with building_comment := none })
          | none => (comment, asm)
        let comment_label := taken.1
        let asm1 := taken.2
        if is_equ then some (asm1, none)
        else asm1.def_label lbl.text lbl comment_label
      | none => some (asm, none)
    match labelStep with
    | none => none
    | some (asm1, some m) => some (asm1, some m)
    | some (asm1, none) =>
      let actionStep : Option (Asm × Option String) :=
        match p.action with
        | some a =>
          match a.is_macro_def with
          | some _ => none
          | none =>
            match a.pass1 p.label asm1 with
            | none => none
            | some (asm2, .error m) => some (asm2, some m)
            | some (asm2, .ok size) =>
              some ({ asm2 with pc := (asm2.pc + size) % 65536 }, none)
        | none => some (asm1, none)
      match actionStep with
      | none => none
      | some (asm2, some m) => some (asm2, some m)
      | some (asm2, none) =>
        let asm3 :=
          match comment with
          | some c =>
            if p.label.isNone && p.action.isNone then
              let bc := (asm2.building_comment.getD "") ++ c ++ "\n"
              { asm2 with building_comment := some bc }
            else asm2
          | none => asm2
        let asm4 :=
          if comment.isNone || p.label.isSome || p.action.isSome then
            { asm3 with building_comment := none }
          else asm3
        some ({ asm4 with parsed_lines := asm4.parsed_lines ++ [p] }, none)

/-- The pass-1 driver loop: per-line errors are counted and the sweep
continues (`Assembler::pass1`). -/
def runPass1Lines (asm : Asm) : List ParsedLine → Option Asm
  | [] => some asm
  | p :: rest =>
    match pass1Parsed asm p with
    | none => none
    | some (a, none) => runPass1Lines a rest
    | some (a, some _) => runPass1Lines { a with errcount := a.errcount + 1 } rest

/-- `Assembler::pass1`: reset the pass state, sweep the lines, then flag an
unterminated if-stack as one more error. -/
def runPass1 (asm0 : Asm) (lines : List ParsedLine) : Option Asm :=
  let asm := { asm0 with pass := .Pass1, parsed_lines := [], symtab := [],
                         pc := 0, if_stack := [] }
  match runPass1Lines asm lines with
  | none => none
  | some a => some (if a.if_stack.isEmpty then a else { a with errcount := a.errcount + 1 })

/-- `Assembler::pass2_line` (listing update omitted): run the action,
advance the PC by the emitted byte count, and contribute the bytes to the
output only while `output_flag` is set. -/
def pass2Parsed (asm : Asm) (p : ParsedLine) : Option (Asm × List Nat × Option String) :=
  match p.action with
  | none => some (asm, [], none)
  | some a =>
    match a.pass2 asm with
    | none => none
    | some (asm1, .error m) => some (asm1, [], some m)
    | some (asm1, .ok bytes) =>
      let asm2 := { asm1 with pc := (asm1.pc + bytes.length) % 65536 }
      if asm2.output_flag then some (asm2, bytes, none)
      else some (asm2, [], none)

/-- The pass-2 driver loop, concatenating each line's contribution. -/
def runPass2Lines (asm : Asm) : List ParsedLine → Option (Asm × List Nat)
  | [] => some (asm, [])
  | p :: rest =>
    match pass2Parsed asm p with
    | none => none
    | some (a, bytes, none) =>
      match runPass2Lines a rest with
      | none => none
      | some (a2, more) => some (a2, bytes ++ more)
    | some (a, _, some _) =>
      match runPass2Lines { a with errcount := a.errcount + 1 } rest with
      | none => none
      | some (a2, more) => some (a2, more)

/-- `Assembler::pass2`: asserts no pass-1 errors, resets the PC, walks the
retained lines. -/
def runPass2 (asm : Asm) : Option (Asm × List Nat) :=
  if asm.errcount ≠ 0 then none
  else
    runPass2Lines { asm with pc := 0, pass := .Pass2, parsed_lines := [] } asm.parsed_lines

/-- `assemble` over pre-parsed lines: pass 1, abort on errors, then pass 2;
the bytes are returned only if pass 2 also finished without errors. -/
def assembleParsed (lines : List ParsedLine) : Option (List Nat) :=
  match runPass1 Asm.new lines with
  | none => none
  | some a1 =>
    if a1.errcount ≠ 0 then none
    else
      match runPass2 a1 with
      | none => none
      | some (a2, bytes) => if a2.errcount ≠ 0 then none else some bytes

/-- Rust `char::is_ascii_whitespace`. -/
def isAsciiWs (c : Char) : Bool :=
  c = ' ' || c = '\t' || c = '\n' || c = '\r' || c.toNat = 12

/-- `Assembler::skip_ws` over the remaining characters of the line. -/
def skipWsChars : List Char → List Char
  | [] => []
  | c :: rest => if isAsciiWs c then skipWsChars rest else c :: rest

/-- `Assembler::at_eol`: skip whitespace (mutating the cursor, hence the
returned remainder), then report end-of-line or a comment start. -/
def atEol (cs : List Char) : Bool × List Char :=
  let cs1 := skipWsChars cs
  match cs1 with
  | [] => (true, cs1)
  | c :: _ => (c = ';', cs1)

/-- The loop of `Assembler::parse_macro_arg` (`mac.rs`): grab characters
up to a comma, comment or end of line.  The whitespace skipping that
`at_eol` performs on the shared cursor each iteration is inlined so the
recursion is structural. -/
def parseMacroArgGo (acc : List Char) : List Char → List Char × List Char
  | [] => (acc, [])
  | c :: rest =>
    if isAsciiWs c then parseMacroArgGo acc rest
    else if c = ';' then (acc, c :: rest)
    else if c = ',' then (acc, c :: rest)
    else parseMacroArgGo (acc ++ [c]) rest

/-- `Assembler::parse_macro_arg`: the collected text, trimmed. -/
def parseMacroArg (cs : List Char) : String × List Char :=
  let r := parseMacroArgGo [] cs
  (trimStr (String.mk r.1), r.2)

/-- The `while` loop that `Assembler::parse_macro` runs after collecting
its first argument: while not at end of line, peek; a non-comma breaks, a
comma loops again — without consuming it.  `fuel` bounds the iterations;
`none` means the loop was still running when the fuel ran out. -/
def parseMacroPost : Nat → List Char → Option (List Char)
  | 0, _ => none
  | fuel + 1, cs =>
    let r := atEol cs
    if r.1 then some r.2
    else
      match r.2 with
      | c :: _ => if c ≠ ',' then some r.2 else parseMacroPost fuel r.2
      | [] => some r.2

/-- `Assembler::parse_macro` on the operand characters of a macro call
site: at most one argument is ever collected, and the trailing loop runs
on `fuel`.  The result is the argument list of the built `MacUsage`
(`none`: the loop was still running after `fuel` steps). -/
def parseMacro (fuel : Nat) (cs : List Char) : Option (List String) :=
  let e := atEol cs
  if e.1 then some []
  else
    let a := parseMacroArg e.2
    match parseMacroPost fuel a.2 with
    | none => none
    | some _ => some [a.1]

/-- `MacUsage::replace_args`: textual substitution of backslash-N by the
call-site arguments, in order. -/
def replaceArgs (args : List String) (text : String) : String :=
  args.enum.foldl (fun s p => s.replace ("\\" ++ toString (p.1 + 1)) p.2) text

/-- Rust `char::to_digit`: the raw digit-or-letter value, kept only when
below the radix. -/
def charToDigit (c : Char) (base : Nat) : Option Nat :=
  let d : Option Nat :=
    if 48 ≤ c.toNat && c.toNat ≤ 57 then some (c.toNat - 48)
    else if 97 ≤ c.toNat && c.toNat ≤ 122 then some (c.toNat - 87)
    else if 65 ≤ c.toNat && c.toNat ≤ 90 then some (c.toNat - 55)
    else none
  d.bind (fun v => if v < base then some v else none)

/-- The digit loop of `Assembler::parse_num`: accumulate
`i * base + digit` in u16 (wrapping, the release-profile semantics of the
unchecked arithmetic), stop at the first non-digit. -/
def parseNumGo (base : Nat) (i : Nat) : List Char → Nat × List Char
  | [] => (i, [])
  | c :: rest =>
    match charToDigit c base with
    | some d => parseNumGo base ((i * base + d) % 65536) rest
    | none => (i, c :: rest)

/-- `Assembler::parse_num` (`parse/expr.rs`): the leading digit is
required (`none` is the panicking `unwrap` on an empty cursor); the result
is the accumulated value and the remaining characters.  `linePos` stands
for the `cur_line` position used as the error header; the slice-joining
bookkeeping feeds only error reporting upstream and is not modelled. -/
def parseNum (base : Nat) (linePos : String) (cs : List Char) :
    Option (Except String (Nat × List Char)) :=
  match cs with
  | [] => none
  | c :: rest =>
    match charToDigit c base with
    | none =>
      some (.error (linePos ++ ": " ++ sq ++ String.singleton c ++ sq ++ " isn" ++ sq
        ++ "t a digit in base " ++ toString base))
    | some d => some (.ok (parseNumGo base d rest))

/-- Modelled from the spec (§4.5): the shrink predicate, in the spec's
words — the operand expression currently evaluates without error to a
value of at most 0xFF. -/
def evalsToZpSpec (oc : OpCode) (ctx : Ctx) : Bool :=
  match oc.expr with
  | some e =>
    match e.eval ctx with
    | some (.ok v) => decide (v ≤ 255)
    | _ => false
  | none => false

/-- Modelled from the spec (§4.5 addressing-mode resolution), to be
compared with `OpCode.real_amode`: for a mnemonic whose table contains
`Rel`, a parser-produced `Abs` demotes to `Rel`; otherwise a
parser-produced `Abs`/`AbsX`/`AbsY` shrinks to the zero-page variant
exactly when the table contains it and the shrink predicate holds (falling
back to the wide mode when evaluation fails); every other parser-produced
mode resolves to itself. -/
def realAmodeSpec (oc : OpCode) (ctx : Ctx) : AMode :=
  if oc.amode = .Abs && (oc.op.find .Rel).isSome then .Rel
  else
    match oc.amode with
    | .Abs => if (oc.op.find .Zp).isSome && evalsToZpSpec oc ctx then .Zp else .Abs
    | .AbsX => if (oc.op.find .ZpX).isSome && evalsToZpSpec oc ctx then .ZpX else .AbsX
    | .AbsY => if (oc.op.find .ZpY).isSome && evalsToZpSpec oc ctx then .ZpY else .AbsY
    | m => m

/-- Equality of `Except` results is decidable (needed to evaluate the
concrete instances below with `decide`). -/
instance {ε α : Type} [DecidableEq ε] [DecidableEq α] : DecidableEq (Except ε α) :=
  fun a b =>
    match a, b with
    | .ok x, .ok y =>
      if h : x = y then isTrue (by rw [h])
      else isFalse (by intro hc; cases hc; exact h rfl)
    | .error x, .error y =>
      if h : x = y then isTrue (by rw [h])
      else isFalse (by intro hc; cases hc; exact h rfl)
    | .ok _, .error _ => isFalse (by intro hc; cases hc)
    | .error _, .ok _ => isFalse (by intro hc; cases hc)

/-- A slice spanning a whole synthetic line of text. -/
def mkSlice (txt : String) (n : Nat) : Slice :=
  { line_text := txt, path := "src", line_num := n, start_char := 0,
    end_char := txt.length }

/-- A pseudo-op fixture with its lowercased name supplied directly
(`String.toLower` of the slice text, precomputed so the kernel can
evaluate the fixtures; `PseudoOp.new` computes it the same way). -/
def mkPseudo (txt lcase : String) (n : Nat) (args : List ExprNode) : PseudoOp :=
  { op_name := mkSlice txt n, op_name_lcase := lcase, args := args }

/-- The `lda foo` line of the C1 counterexample: parser-produced `Abs`
with a single symbol operand. -/
def ldaFooLine : OpCode :=
  { op := ldaOp, op_slice := mkSlice "lda foo" 1, amode := .Abs,
    expr := some (.Name (mkSlice "foo" 1)) }

/-- A context in which `foo` is still undefined (pass 1 before its
definition). -/
def ctxFooUndef : Ctx := fun _ => none

/-- A context in which `foo` is defined to the zero-page value 0x10
(pass 2). -/
def ctxFooZp : Ctx := fun n => if n = "foo" then some 16 else none

/-- The nested-conditional program of spec §8.5, as parsed lines. -/
def prog85 : List ParsedLine :=
  [ { label := some (mkSlice "FOO" 1),
      action := some (.pseudo (mkPseudo "=" "=" 1 [.Num 1 (mkSlice "1" 1)])),
      comment := none },
    { label := some (mkSlice "BAR" 2),
      action := some (.pseudo (mkPseudo "=" "=" 2 [.Num 2 (mkSlice "2" 2)])),
      comment := none },
    { label := none,
      action := some (.pseudo (mkPseudo ".IF" ".if" 3
        [.RelOp .Equ (.Name (mkSlice "FOO" 3)) (.Name (mkSlice "BAR" 3)) (mkSlice "FOO" 3)])),
      comment := none },
    { label := none,
      action := some (.pseudo (mkPseudo ".BYTE" ".byte" 4
        [.Num 1 (mkSlice "1" 4), .Num 2 (mkSlice "2" 4), .Num 3 (mkSlice "3" 4)])),
      comment := none },
    { label := none,
      action := some (.pseudo (mkPseudo ".ELSE" ".else" 5 [])),
      comment := none },
    { label := none,
      action := some (.pseudo (mkPseudo ".IF" ".if" 6
        [.RelOp .Less (.Name (mkSlice "FOO" 6)) (.Name (mkSlice "BAR" 6)) (mkSlice "FOO" 6)])),
      comment := none },
    { label := none,
      action := some (.pseudo (mkPseudo ".BYTE" ".byte" 7
        [.Num 4 (mkSlice "4" 7), .Num 5 (mkSlice "5" 7), .Num 6 (mkSlice "6" 7)])),
      comment := none },
    { label := none,
      action := some (.pseudo (mkPseudo ".ENDIF" ".endif" 8 [])),
      comment := none },
    { label := none,
      action := some (.pseudo (mkPseudo ".BYTE" ".byte" 9
        [.Num 7 (mkSlice "7" 9), .Num 8 (mkSlice "8" 9), .Num 9 (mkSlice "9" 9)])),
      comment := none },
    { label := none,
      action := some (.pseudo (mkPseudo ".ENDIF" ".endif" 10 [])),
      comment := none } ]

/-- A slice used by the concrete instances below. -/
def slA : Slice := mkSlice "foo" 1

/-- A second, distinct slice for the same symbol name. -/
def slB : Slice := mkSlice "foo" 2

/-- A pass-1 assembler state whose table already defines `foo = 5`. -/
def asmFooDef : Asm :=
  { Asm.new with
    pass := .Pass1,
    symtab := [("foo", { name := "foo", value := some 5, defined_at := some slA,
                         references := [slA], comment := none })] }

/-- A fresh pass-1 assembler state. -/
def asmP1 : Asm := { Asm.new with pass := .Pass1 }

/-- A fresh pass-2 assembler state (empty symbol table). -/
def asmP2 : Asm := { Asm.new with pass := .Pass2 }

/-- A pass-2 assembler state whose table defines `foo = 5`. -/
def asmFooDefP2 : Asm := { asmFooDef with pass := .Pass2 }

/-- `lda` with a parser-produced `Abs` operand that is the constant `$10`. -/
def ldaNumZp : OpCode :=
  { op := ldaOp, op_slice := mkSlice "lda" 1, amode := .Abs,
    expr := some (.Num 16 (mkSlice "16" 1)) }

/-- `beq` with a parser-produced `Abs` operand, the constant target 202. -/
def beqNum : OpCode :=
  { op := beqOp, op_slice := mkSlice "beq" 1, amode := .Abs,
    expr := some (.Num 202 (mkSlice "202" 1)) }

/-- `add_ref` does not change a symbol's value. -/
theorem Symbol.add_ref_value (s : Symbol) (r : Slice) : (s.add_ref r).value = s.value := by
  unfold Symbol.add_ref
  split <;> rfl

/-- `add_ref` does not change a symbol's name. -/
theorem Symbol.add_ref_name (s : Symbol) (r : Slice) : (s.add_ref r).name = s.name := by
  unfold Symbol.add_ref
  split <;> rfl

/-- `add_ref` does not change a symbol's definition site. -/
theorem Symbol.add_ref_defined_at (s : Symbol) (r : Slice) :
    (s.add_ref r).defined_at = s.defined_at := by
  unfold Symbol.add_ref
  split <;> rfl

/-- Looking up the key just stored. -/
theorem symFind_symSet_self (t : List (String × Symbol)) (n : String) (s : Symbol) :
    symFind (symSet t n s) n = some s := by
  induction t with
  | nil => simp [symSet, symFind]
  | cons kv rest ih =>
    obtain ⟨k, v⟩ := kv
    by_cases h : k = n
    · subst h
      simp [symSet, symFind, List.find?]
    · simpa [symSet, h, symFind, List.find?] using ih

/-- Storing one key leaves every other key's entry unchanged. -/
theorem symFind_symSet_other (t : List (String × Symbol)) (n m : String) (s : Symbol)
    (h : m ≠ n) : symFind (symSet t n s) m = symFind t m := by
  induction t with
  | nil => simp [symSet, symFind, List.find?, Ne.symm h]
  | cons kv rest ih =>
    obtain ⟨k, v⟩ := kv
    by_cases hk : k = n
    · subst hk
      simp [symSet, symFind, List.find?, Ne.symm h]
    · by_cases hm : k = m
      · subst hm
        simp [symSet, hk, symFind, List.find?]
      · simpa [symSet, hk, symFind, List.find?, hm] using ih

/-- C10: expression evaluation is not total at zero divisors.  For a
division or modulo node whose right operand evaluates to 0 (and whose left
operand evaluated), `ExprNode::eval` panics (`none`) instead of returning
an error result; for every nonzero divisor it returns the 16-bit quotient
or remainder. -/
theorem c10_div_mod_zero_panics (l r : ExprNode) (sl : Slice) (ctx : Ctx) (vl : Nat)
    (hl : l.eval ctx = some (.ok vl)) :
    (r.eval ctx = some (.ok 0) →
      (ExprNode.Div l r sl).eval ctx = none ∧ (ExprNode.Mod l r sl).eval ctx = none) ∧
    (∀ d, r.eval ctx = some (.ok d) → d ≠ 0 →
      (ExprNode.Div l r sl).eval ctx = some (.ok (vl / d)) ∧
      (ExprNode.Mod l r sl).eval ctx = some (.ok (vl % d))) := by
  constructor
  · intro hr
    constructor <;> simp [ExprNode.eval, hl, hr]
  · intro d hr hd
    constructor <;> simp [ExprNode.eval, hl, hr, hd]

/-- Witness for C10 at concrete nodes: `7 / 0` panics while `7 / 2` and
`7 % 2` evaluate. -/
theorem c10_witness :
    (ExprNode.Div (.Num 7 slA) (.Num 0 slA) slA).eval ctxFooUndef = none ∧
    (ExprNode.Div (.Num 7 slA) (.Num 2 slA) slA).eval ctxFooUndef = some (.ok 3) ∧
    (ExprNode.Mod (.Num 7 slA) (.Num 2 slA) slA).eval ctxFooUndef = some (.ok 1) := by
  have h0 := c10_div_mod_zero_panics (.Num 7 slA) (.Num 0 slA) slA ctxFooUndef 7 rfl
  have h2 := c10_div_mod_zero_panics (.Num 7 slA) (.Num 2 slA) slA ctxFooUndef 7 rfl
  exact ⟨(h0.1 rfl).1, (h2.2 2 rfl (by decide)).1, (h2.2 2 rfl (by decide)).2⟩

/-- The trailing loop of `parse_macro` never leaves the comma it peeks at:
on the remaining characters `", 2"` it makes no progress for any amount of
fuel. -/
theorem parseMacroPost_stuck (fuel : Nat) :
    parseMacroPost fuel [',', ' ', '2'] = none := by
  induction fuel with
  | zero => rfl
  | succ n ih =>
    have hstep : parseMacroPost (n + 1) [',', ' ', '2'] =
        parseMacroPost n [',', ' ', '2'] := rfl
    rw [hstep, ih]

/-- C6: macro-usage parsing does not terminate on a call site with a
second comma-separated argument.  On the operand characters `"1, 2"` the
argument loop of `Assembler::parse_macro` peeks at the comma without ever
consuming it, so no amount of fuel completes the parse (and at most the
one argument, `"1"`, would ever have been collected). -/
theorem c6_macro_comma_nonterminating (fuel : Nat) :
    parseMacro fuel ['1', ',', ' ', '2'] = none := by
  have hred : parseMacro fuel ['1', ',', ' ', '2'] =
      (match parseMacroPost fuel [',', ' ', '2'] with
       | none => none
       | some _ => some [(parseMacroArg ['1', ',', ' ', '2']).1]) := rfl
  rw [hred, parseMacroPost_stuck fuel]

/-- Every addressing mode occupies at least one byte. -/
theorem byte_size_pos (a : AMode) : 1 ≤ a.byte_size := by
  cases a <;> simp [AMode.byte_size]

/-- A successful `OpCode::pass1` returns exactly the resolved mode's byte
size, and the mnemonic's table contains that mode. -/
theorem pass1_ok_size (oc : OpCode) (ctx : Ctx) (amode : AMode) (size : Nat)
    (h1 : oc.real_amode ctx = some amode)
    (hp : oc.pass1 ctx = some (.ok size)) :
    size = amode.byte_size ∧ (oc.op.find amode).isSome := by
  simp only [OpCode.pass1, h1] at hp
  split at hp
  · refine ⟨?_, by assumption⟩
    injection hp with hp1
    injection hp1 with hp2
    exact hp2.symm
  · simp at hp

/-- A successful `OpCode::pass2` decomposes as `opcode byte :: operand
bytes` with the operand bytes coming from a successful `eval`. -/
theorem pass2_ok_decomp (oc : OpCode) (ctx : Ctx) (pc : Nat) (amode : AMode)
    (bytes : List Nat)
    (h2 : oc.real_amode ctx = some amode)
    (hp : oc.pass2 ctx pc = some (.ok bytes)) :
    ∃ b bs, oc.op.find amode = some b ∧
      oc.evalOperand amode ctx pc = some (.ok bs) ∧ bytes = b :: bs := by
  simp only [OpCode.pass2, h2] at hp
  cases heo : oc.evalOperand amode ctx pc with
  | none => rw [heo] at hp; cases hp
  | some r =>
    rw [heo] at hp
    cases r with
    | error m => simp at hp
    | ok bs =>
      cases hb : oc.op.find amode with
      | none => rw [hb] at hp; simp at hp
      | some b =>
        rw [hb] at hp
        refine ⟨b, bs, rfl, rfl, ?_⟩
        injection hp with hp1
        injection hp1 with hp2
        exact hp2.symm

/-- A successful operand evaluation yields either no bytes (when there is
no operand expression) or exactly `byte_size - 1` bytes. -/
theorem evalOperand_ok_length (oc : OpCode) (amode : AMode) (ctx : Ctx) (pc : Nat)
    (bs : List Nat) (h : oc.evalOperand amode ctx pc = some (.ok bs)) :
    (oc.expr = none ∧ bs = []) ∨ bs.length = amode.byte_size - 1 := by
  cases hexpr : oc.expr with
  | none =>
    simp only [OpCode.evalOperand, hexpr] at h
    left
    refine ⟨rfl, ?_⟩
    injection h with h1
    injection h1 with h2
    exact h2.symm
  | some e =>
    simp only [OpCode.evalOperand, hexpr] at h
    cases heval : e.eval ctx with
    | none =>
      simp only [heval] at h
      cases h
    | some r =>
      cases r with
      | error m => simp [heval] at h
      | ok val =>
        right
        by_cases hrel : amode = .Rel
        · subst hrel
          simp only [heval] at h
          split at h
          · split at h
            · injection h with h1
              injection h1 with h2
              rw [← h2]
              rfl
            · simp at h
          · simp_all
        · simp only [heval] at h
          rw [if_neg hrel] at h
          rcases amode with _ | _ | _ | _ | _ | _ | _ | _ | _ | _ | _ | _
          · simp [AMode.byte_size] at h
            split at h
            · injection h with h1
              injection h1 with h2
              subst h2
              rfl
            · simp_all
          · simp [AMode.byte_size] at h
          · simp [AMode.byte_size] at h
            split at h
            · injection h with h1
              injection h1 with h2
              subst h2
              rfl
            · simp_all
          · simp [AMode.byte_size] at h
            split at h
            · injection h with h1
              injection h1 with h2
              subst h2
              rfl
            · simp_all
          · simp [AMode.byte_size] at h
            split at h
            · injection h with h1
              injection h1 with h2
              subst h2
              rfl
            · simp_all
          · simp [AMode.byte_size] at h
            subst h
            rfl
          · simp [AMode.byte_size] at h
            subst h
            rfl
          · simp [AMode.byte_size] at h
            subst h
            rfl
          · simp [AMode.byte_size] at h
            subst h
            rfl
          · simp [AMode.byte_size] at h
            split at h
            · injection h with h1
              injection h1 with h2
              subst h2
              rfl
            · simp_all
          · simp [AMode.byte_size] at h
            split at h
            · injection h with h1
              injection h1 with h2
              subst h2
              rfl
            · simp_all
          · exact absurd rfl hrel

/-- C1, counterexample: `lda foo` with `foo` undefined during pass-1
resolution is sized as 3-byte `Abs`, but pass 2, where `foo = $10`,
re-resolves to `Zp` and emits only 2 bytes. -/
theorem c1_counterexample :
    ldaFooLine.pass1 ctxFooUndef = some (.ok 3) ∧
    ldaFooLine.pass2 ctxFooZp 0 = some (.ok [165, 16]) ∧
    ([165, 16] : List Nat).length ≠ 3 := by
  refine ⟨by decide, by decide, by decide⟩

/-- C1, amended: for a parser-shaped opcode (an operand expression is
present unless the parsed mode is implied), whenever pass 1 and pass 2
resolve to the same addressing mode, the number of bytes a successful
`OpCode::pass2` emits equals the size a successful `OpCode::pass1`
declared.  (The counterexample above shows the two resolutions differ —
and the sizes with them — when a symbol undefined at pass-1 resolution
later evaluates to a zero-page value.) -/
theorem c1_amended_size_agreement (oc : OpCode) (ctx1 ctx2 : Ctx) (pc : Nat)
    (amode : AMode) (size : Nat) (bytes : List Nat)
    (hshape : oc.expr = none → oc.amode = .Imp)
    (h1 : oc.real_amode ctx1 = some amode)
    (h2 : oc.real_amode ctx2 = some amode)
    (hp1 : oc.pass1 ctx1 = some (.ok size))
    (hp2 : oc.pass2 ctx2 pc = some (.ok bytes)) :
    bytes.length = size := by
  obtain ⟨hsize, -⟩ := pass1_ok_size oc ctx1 amode size h1 hp1
  obtain ⟨b, bs, -, heo, hbytes⟩ := pass2_ok_decomp oc ctx2 pc amode bytes h2 hp2
  subst hbytes
  subst hsize
  rcases evalOperand_ok_length oc amode ctx2 pc bs heo with ⟨hnone, hbs⟩ | hlen
  · have hImp := hshape hnone
    have hamode : amode = .Imp := by
      unfold OpCode.real_amode at h2
      rw [hImp] at h2
      injection h2 with h2a
      exact h2a.symm
    subst hamode
    subst hbs
    rfl
  · have hpos := byte_size_pos amode
    simp [hlen]
    omega

/-- Witness for the amended C1 at a concrete opcode: `lda $10` resolves to
`Zp` in both passes, pass 1 declares 2 bytes and pass 2 emits 2 bytes. -/
theorem c1_witness :
    ldaNumZp.pass1 ctxFooUndef = some (.ok 2) ∧
    ldaNumZp.pass2 ctxFooUndef 0 = some (.ok [165, 16]) ∧
    ([165, 16] : List Nat).length = 2 := by
  refine ⟨by decide, by decide, ?_⟩
  exact c1_amended_size_agreement ldaNumZp ctxFooUndef ctxFooUndef 0 .Zp 2 [165, 16]
    (fun h => Option.noConfusion h) (by decide) (by decide) (by decide) (by decide)

/-- C2, counterexample: in pass 1, redefining `foo` (stored value 5) with
the *same* value 5 still fails — `Symbol::define` rejects any
redefinition, not only those with a different value. -/
theorem c2_counterexample :
    asmFooDef.symval "foo" = some 5 ∧
    (asmFooDef.def_symbol "foo" slB 5).map (fun r => Option.isSome r.2) = some true := by
  refine ⟨by decide, by decide⟩

/-- C2, amended: in pass 1, defining a symbol succeeds exactly when the
symbol has no stored value yet (then the value is set), and *any*
redefinition of an already-valued symbol — same value or not — is a fatal
error naming the original definition site. -/
theorem c2_amended_redefine (asm : Asm) (name : String) (sl : Slice) (value : Nat)
    (asm1 : Asm) (err : Option String)
    (hp : asm.pass = .Pass1)
    (hd : asm.def_symbol name sl value = some (asm1, err)) :
    (err = none ↔ asm.symval name = none) ∧
    (err = none → asm1.symval name = some value) ∧
    (∀ sym v, symFind asm.symtab name = some sym → sym.value = some v →
      err = some (sl.errMsg (sq ++ sym.name ++ sq ++ " redefined (orig. def. at "
        ++ ((sym.defined_at.map Slice.pos).getD "") ++ ")"))) := by
  simp only [Asm.def_symbol, hp, Asm.lookup] at hd
  cases hfind : symFind asm.symtab name with
  | none =>
    rw [hfind] at hd
    simp only [Symbol.define, Symbol.new, Symbol.add_ref] at hd
    simp at hd
    obtain ⟨ha, he⟩ := hd
    refine ⟨?_, ?_, ?_⟩
    · simp [← he, Asm.symval, hfind]
    · intro _
      rw [← ha]
      simp [Asm.symval, symFind_symSet_self, Symbol.add_ref_value]
    · intro sym v hsym
      cases hsym
  | some sym =>
    rw [hfind] at hd
    have hval : (sym.add_ref sl).value = sym.value := Symbol.add_ref_value sym sl
    cases hv : sym.value with
    | none =>
      simp only [Symbol.define, hval, hv] at hd
      simp at hd
      obtain ⟨ha, he⟩ := hd
      refine ⟨?_, ?_, ?_⟩
      · simp [← he, Asm.symval, hfind, hv]
      · intro _
        rw [← ha]
        simp [Asm.symval, symFind_symSet_self, Symbol.add_ref_value]
      · intro s v hsym hsv
        injection hsym with hs
        subst hs
        rw [hv] at hsv
        cases hsv
    | some v0 =>
      simp only [Symbol.define, hval, hv] at hd
      simp at hd
      obtain ⟨ha, he⟩ := hd
      refine ⟨?_, ?_, ?_⟩
      · constructor
        · intro h0
          rw [h0] at he
          cases he
        · intro h0
          simp [Asm.symval, hfind, hv] at h0
      · intro h0
        rw [h0] at he
        cases he
      · intro s v hsym hsv
        injection hsym with hs
        subst hs
        rw [← he]
        rw [Symbol.add_ref_name, Symbol.add_ref_defined_at]

/-- Witness for the amended C2: a fresh symbol defines fine, and the
already-defined `foo` yields the exact `redefined` message. -/
theorem c2_witness :
    (asmP1.def_symbol "foo" slB 5).map (fun r => r.2) = some none ∧
    (asmFooDef.def_symbol "foo" slB 7).map (fun r => r.2) =
      some (some (slB.errMsg (sq ++ "foo" ++ sq ++ " redefined (orig. def. at "
        ++ slA.pos ++ ")"))) := by
  constructor
  · rcases hds : asmP1.def_symbol "foo" slB 5 with - | ⟨a1, err⟩
    · exact Option.noConfusion hds
    · have h := c2_amended_redefine asmP1 "foo" slB 5 a1 err rfl hds
      have he : err = none := h.1.mpr (by decide)
      rw [he]
      rfl
  · rcases hds : asmFooDef.def_symbol "foo" slB 7 with - | ⟨a1, err⟩
    · exact Option.noConfusion hds
    · have h := c2_amended_redefine asmFooDef "foo" slB 7 a1 err rfl hds
      have he := h.2.2 { name := "foo", value := some 5, defined_at := some slA,
                         references := [slA], comment := none } 5 (by decide) rfl
      rw [he]
      rfl

/-- C5, counterexample: a pass-2 definition of a symbol absent from the
table fails, but the symbol-table entry does not stay unchanged — the
`lookup` inside `def_symbol` creates the entry (undefined, with the new
reference recorded); the message also cites `undefined`, not a pass-1
value in hex. -/
theorem c5_counterexample :
    symFind asmP2.symtab "foo" = none ∧
    (asmP2.def_symbol "foo" slB 5).map
      (fun r => (Option.isSome r.2, (symFind r.1.symtab "foo").isSome)) =
      some (true, true) := by
  refine ⟨by decide, by decide⟩

/-- C5, amended: in pass 2, defining a symbol succeeds exactly when the
symbol already holds an equal value; the stored *values* (and definition
sites) of all symbols are untouched either way, although the lookup still
records the reference and creates a missing symbol as an undefined entry;
a value mismatch errors citing both values in hex, while a symbol without
a pass-1 value errors citing `undefined` and the pass-2 value in hex. -/
theorem c5_amended_pass2_define (asm : Asm) (name : String) (sl : Slice) (value : Nat)
    (asm1 : Asm) (err : Option String)
    (hp : asm.pass = .Pass2)
    (hd : asm.def_symbol name sl value = some (asm1, err)) :
    (err = none ↔ asm.symval name = some value) ∧
    (∀ n, asm1.symval n = asm.symval n) ∧
    (∀ v, asm.symval name = some v → v ≠ value →
      err = some (sl.errMsg (sq ++ name ++ sq ++ " is " ++ hexU v ++ " in pass1, "
        ++ hexU value ++ " in pass2"))) ∧
    (asm.symval name = none →
      err = some (sl.errMsg (sq ++ name ++ sq ++ " undefined in pass1, defined as "
        ++ hexU value ++ " in pass2"))) := by
  simp only [Asm.def_symbol, hp, Asm.lookup] at hd
  cases hfind : symFind asm.symtab name with
  | none =>
    simp only [hfind] at hd
    have hvnone : ((Symbol.new name sl).add_ref sl).value = none := by
      rw [Symbol.add_ref_value]
      rfl
    have hsym2 : ∀ n, symFind (symSet asm.symtab name ((Symbol.new name sl).add_ref sl)) n =
        (if n = name then some ((Symbol.new name sl).add_ref sl) else symFind asm.symtab n) := by
      intro n
      by_cases hn : n = name
      · subst hn
        simp [symFind_symSet_self]
      · simp [hn, symFind_symSet_other asm.symtab name n _ hn]
    simp only [hvnone] at hd
    simp at hd
    obtain ⟨ha, he⟩ := hd
    subst ha
    subst he
    refine ⟨?_, ?_, ?_, ?_⟩
    · simp [Asm.symval, hfind]
    · intro n
      simp only [Asm.symval]
      rw [hsym2 n]
      by_cases hn : n = name
      · subst hn
        simp [Symbol.add_ref_value, Symbol.new, hfind]
      · simp [hn]
    · intro v h0
      simp [Asm.symval, hfind] at h0
    · intro _
      rfl
  | some sym =>
    simp only [hfind] at hd
    have hval : (sym.add_ref sl).value = sym.value := Symbol.add_ref_value sym sl
    have hsymval : asm.symval name = sym.value := by
      simp [Asm.symval, hfind]
    have hsym2 : ∀ n, symFind (symSet asm.symtab name (sym.add_ref sl)) n =
        (if n = name then some (sym.add_ref sl) else symFind asm.symtab n) := by
      intro n
      by_cases hn : n = name
      · subst hn
        simp [symFind_symSet_self]
      · simp [hn, symFind_symSet_other asm.symtab name n _ hn]
    have hpres : ∀ n, (Asm.symval { asm with symtab := symSet asm.symtab name (sym.add_ref sl) } n)
        = asm.symval n := by
      intro n
      simp only [Asm.symval]
      rw [hsym2 n]
      by_cases hn : n = name
      · subst hn
        simp [hval, hfind]
      · simp [hn]
    cases hv : sym.value with
    | none =>
      rw [hval, hv] at hd
      simp at hd
      obtain ⟨ha, he⟩ := hd
      subst ha
      subst he
      refine ⟨?_, ?_, ?_, ?_⟩
      · simp [hsymval, hv]
      · exact hpres
      · intro v h0
        rw [hsymval, hv] at h0
        cases h0
      · intro _
        rfl
    | some v0 =>
      rw [hval, hv] at hd
      by_cases hveq : v0 = value
      · simp [hveq] at hd
        obtain ⟨ha, he⟩ := hd
        subst ha
        subst he
        refine ⟨?_, ?_, ?_, ?_⟩
        · simp [hsymval, hv, hveq]
        · exact hpres
        · intro v h0 hne
          rw [hsymval, hv] at h0
          injection h0 with h0v
          exact absurd (h0v.symm.trans hveq) hne
        · intro h0
          rw [hsymval, hv] at h0
          cases h0
      · simp [hveq] at hd
        obtain ⟨ha, he⟩ := hd
        subst ha
        subst he
        refine ⟨?_, ?_, ?_, ?_⟩
        · constructor
          · intro h0
            cases h0
          · intro h0
            rw [hsymval, hv] at h0
            injection h0 with h0v
            exact absurd h0v hveq
        · exact hpres
        · intro v h0 hne
          rw [hsymval, hv] at h0
          injection h0 with h0v
          rw [← h0v]
        · intro h0
          rw [hsymval, hv] at h0
          cases h0

/-- Witness for the amended C5: defining `foo = 5` again in pass 2
succeeds and changes no symbol value; defining `foo = 7` fails with the
exact two-value message. -/
theorem c5_witness :
    (asmFooDefP2.def_symbol "foo" slB 5).map (fun r => r.2) = some none ∧
    (asmFooDefP2.def_symbol "foo" slB 7).map (fun r => r.2) =
      some (some (slB.errMsg (sq ++ "foo" ++ sq ++ " is 5 in pass1, 7 in pass2"))) := by
  constructor
  · rcases hds : asmFooDefP2.def_symbol "foo" slB 5 with - | ⟨a1, err⟩
    · exact Option.noConfusion hds
    · have h := c5_amended_pass2_define asmFooDefP2 "foo" slB 5 a1 err rfl hds
      have he : err = none := h.1.mpr (by decide)
      rw [he]
      rfl
  · rcases hds : asmFooDefP2.def_symbol "foo" slB 7 with - | ⟨a1, err⟩
    · exact Option.noConfusion hds
    · have h := c5_amended_pass2_define asmFooDefP2 "foo" slB 7 a1 err rfl hds
      have he := h.2.2.1 5 (by decide) (by decide)
      rw [he]
      have : hexU 5 = "5" := by decide
      rw [this]
      have h7 : hexU 7 = "7" := by decide
      rw [h7]
      rfl

/-- C3: for a relative-mode operand in pass 2 the emitted byte is the
two's-complement encoding of `offset = target - (pc + 2)` whenever that
offset fits in an `i8`, and an out-of-range offset is an error rather than
bytes; a branch to `pc + 2` emits `0x00`, to `pc + 2 + 127` emits `0x7F`,
and to `pc + 2 - 128` emits `0x80`. -/
theorem c3_rel_branch_encoding (oc : OpCode) (e : ExprNode) (ctx : Ctx) (pc val : Nat)
    (hexpr : oc.expr = some e) (hval : e.eval ctx = some (.ok val)) :
    (oc.evalOperand .Rel ctx pc =
      (if -128 ≤ (val : Int) - ((pc : Int) + 2) ∧ (val : Int) - ((pc : Int) + 2) ≤ 127 then
        some (.ok [(((val : Int) - ((pc : Int) + 2)).emod 256).toNat])
      else
        some (.error (oc.line_slice.errMsg ("offset "
          ++ toString ((val : Int) - ((pc : Int) + 2)) ++ " out of range"))))) ∧
    (val = pc + 2 → oc.evalOperand .Rel ctx pc = some (.ok [0])) ∧
    (val = pc + 2 + 127 → oc.evalOperand .Rel ctx pc = some (.ok [127])) ∧
    (126 ≤ pc → val = pc - 126 → oc.evalOperand .Rel ctx pc = some (.ok [128])) := by
  have hmain : oc.evalOperand .Rel ctx pc =
      (if -128 ≤ (val : Int) - ((pc : Int) + 2) ∧ (val : Int) - ((pc : Int) + 2) ≤ 127 then
        some (.ok [(((val : Int) - ((pc : Int) + 2)).emod 256).toNat])
      else
        some (.error (oc.line_slice.errMsg ("offset "
          ++ toString ((val : Int) - ((pc : Int) + 2)) ++ " out of range")))) := by
    simp only [OpCode.evalOperand, hexpr, hval]
    rfl
  refine ⟨hmain, ?_, ?_, ?_⟩
  · intro hv
    subst hv
    rw [hmain]
    have hoff : ((pc + 2 : Nat) : Int) - ((pc : Int) + 2) = 0 := by
      push_cast
      ring
    rw [hoff]
    norm_num
  · intro hv
    subst hv
    rw [hmain]
    have hoff : ((pc + 2 + 127 : Nat) : Int) - ((pc : Int) + 2) = 127 := by
      push_cast
      ring
    rw [hoff]
    norm_num
    rfl
  · intro hpc hv
    subst hv
    rw [hmain]
    have hoff : ((pc - 126 : Nat) : Int) - ((pc : Int) + 2) = -128 := by
      have : ((pc - 126 : Nat) : Int) = (pc : Int) - 126 := by
        push_cast [hpc]
        ring
      rw [this]
      ring
    rw [hoff]
    norm_num
    rfl

/-- Witness for C3: a `beq` at `pc = 200` to target 202 (= `pc + 2`)
emits offset byte `0x00`, and at `pc = 215` the same target (offset −15)
emits `0xF1`. -/
theorem c3_witness :
    beqNum.evalOperand .Rel ctxFooUndef 200 = some (.ok [0]) ∧
    beqNum.evalOperand .Rel ctxFooUndef 215 = some (.ok [241]) := by
  constructor
  · exact (c3_rel_branch_encoding beqNum (.Num 202 (mkSlice "202" 1)) ctxFooUndef 200 202
      rfl rfl).2.1 rfl
  · have h := (c3_rel_branch_encoding beqNum (.Num 202 (mkSlice "202" 1)) ctxFooUndef 215 202
      rfl rfl).1
    rw [h]
    norm_num
    rfl

/-- When the operand expression does not panic, `OpCode::is_zp` computes
exactly the spec's shrink predicate. -/
theorem is_zp_eq_spec (oc : OpCode) (ctx : Ctx)
    (hnp : ∀ e, oc.expr = some e → (e.eval ctx).isSome) :
    oc.is_zp ctx = some (evalsToZpSpec oc ctx) := by
  unfold OpCode.is_zp evalsToZpSpec
  cases hexpr : oc.expr with
  | none => rfl
  | some e =>
    have hs := hnp e hexpr
    cases hev : e.eval ctx with
    | none =>
      rw [hev] at hs
      simp at hs
    | some r => cases r <;> simp [hev]

/-- C4: addressing-mode resolution agrees with the spec's description
(branch demotion `Abs → Rel`, zero-page shrink exactly when a zero-page
variant exists and the operand currently evaluates without error to at
most 0xFF, identity elsewhere), whenever evaluating the operand does not
panic. -/
theorem c4_real_amode_spec_equiv (oc : OpCode) (ctx : Ctx)
    (hnp : ∀ e, oc.expr = some e → (e.eval ctx).isSome) :
    oc.real_amode ctx = some (realAmodeSpec oc ctx) := by
  have hzp := is_zp_eq_spec oc ctx hnp
  unfold OpCode.real_amode realAmodeSpec
  cases ha : oc.amode
  case Abs =>
    rw [hzp]
    by_cases hr : (oc.op.find AMode.Rel).isSome
    · simp [hr]
    · by_cases hz : (oc.op.find AMode.Zp).isSome
      · cases hspec : evalsToZpSpec oc ctx <;> simp [hr, hz, hspec]
      · simp [hr, hz]
  case AbsX =>
    rw [hzp]
    by_cases hz : (oc.op.find AMode.ZpX).isSome
    · cases hspec : evalsToZpSpec oc ctx <;> simp [hz, hspec]
    · simp [hz]
  case AbsY =>
    rw [hzp]
    by_cases hz : (oc.op.find AMode.ZpY).isSome
    · cases hspec : evalsToZpSpec oc ctx <;> simp [hz, hspec]
    · simp [hz]
  all_goals simp

/-- Witness for C4: `lda $10` (constant zero-page operand) resolves to
`Zp` and agrees with the spec-side resolver. -/
theorem c4_witness :
    ldaNumZp.real_amode ctxFooUndef = some (realAmodeSpec ldaNumZp ctxFooUndef) ∧
    realAmodeSpec ldaNumZp ctxFooUndef = .Zp := by
  constructor
  · exact c4_real_amode_spec_equiv ldaNumZp ctxFooUndef (fun e he => by
      injection he with h
      rw [← h]
      decide)
  · decide

/-- The exact (unwrapped) value of a digit string, continuing from an
accumulator, base-positionally. -/
def digitsVal (base : Nat) : Nat → List Char → Nat
  | i, [] => i
  | i, c :: rest => digitsVal base (i * base + ((charToDigit c base).getD 0)) rest

/-- A successful `charToDigit` is below the base. -/
theorem charToDigit_lt {c : Char} {base d : Nat} (h : charToDigit c base = some d) :
    d < base := by
  unfold charToDigit at h
  rcases Option.bind_eq_some.mp h with ⟨v, -, hf⟩
  split at hf
  · injection hf with h1
    subst h1
    assumption
  · cases hf

/-- `digitsVal` is congruent modulo 2^16 in its accumulator. -/
theorem digitsVal_mod_congr (base : Nat) (ds : List Char) {i j : Nat}
    (h : i % 65536 = j % 65536) :
    digitsVal base i ds % 65536 = digitsVal base j ds % 65536 := by
  induction ds generalizing i j with
  | nil => simpa [digitsVal] using h
  | cons c rest ih =>
    simp only [digitsVal]
    apply ih
    have hm : i * base % 65536 = j * base % 65536 := by
      rw [Nat.mul_mod, h, ← Nat.mul_mod]
    rw [Nat.add_mod, hm, ← Nat.add_mod]

/-- The digit loop consumes exactly the leading digits and accumulates
their value modulo 2^16. -/
theorem parseNumGo_spec (base : Nat) (ds : List Char) : ∀ (rest : List Char) (i : Nat),
    i < 65536 →
    (∀ c ∈ ds, (charToDigit c base).isSome) →
    (∀ c, rest.head? = some c → charToDigit c base = none) →
    parseNumGo base i (ds ++ rest) = (digitsVal base i ds % 65536, rest) := by
  induction ds with
  | nil =>
    intro rest i hi _ hrest
    cases rest with
    | nil => simp [parseNumGo, digitsVal, Nat.mod_eq_of_lt hi]
    | cons c cs =>
      have hc := hrest c rfl
      simp [parseNumGo, hc, digitsVal, Nat.mod_eq_of_lt hi]
  | cons c cs ih =>
    intro rest i hi hds hrest
    have hc := hds c (by simp)
    obtain ⟨d, hd⟩ := Option.isSome_iff_exists.mp hc
    rw [List.cons_append]
    simp only [parseNumGo, hd]
    rw [ih rest ((i * base + d) % 65536) (Nat.mod_lt _ (by norm_num))
      (fun x hx => hds x (by simp [hx])) hrest]
    refine Prod.ext ?_ rfl
    simp only [digitsVal, hd, Option.getD_some]
    exact digitsVal_mod_congr base cs (by simp [Nat.mod_mod_of_dvd])

/-- C7: for bases 2, 8, 10 and 16, `parse_num` succeeds on every
non-empty valid digit string and returns its value reduced modulo 2^16
(16-bit wrap-around, the release-profile semantics of the accumulating
arithmetic), consuming exactly the digits — it neither errors nor panics
on literals whose mathematical value exceeds 0xFFFF. -/
theorem c7_parse_num_wraps (base : Nat) (linePos : String) (ds rest : List Char)
    (hbase : base = 2 ∨ base = 8 ∨ base = 10 ∨ base = 16)
    (hne : ds ≠ [])
    (hds : ∀ c ∈ ds, (charToDigit c base).isSome)
    (hrest : ∀ c, rest.head? = some c → charToDigit c base = none) :
    parseNum base linePos (ds ++ rest) =
      some (.ok (digitsVal base 0 ds % 65536, rest)) := by
  cases ds with
  | nil => exact absurd rfl hne
  | cons c cs =>
    obtain ⟨d, hd⟩ := Option.isSome_iff_exists.mp (hds c (by simp))
    have hdbase : d < base := charToDigit_lt hd
    have hdlt : d < 65536 := by
      rcases hbase with h | h | h | h <;> omega
    rw [List.cons_append]
    simp only [parseNum, hd]
    rw [parseNumGo_spec base cs rest d hdlt (fun x hx => hds x (by simp [hx])) hrest]
    have : digitsVal base 0 (c :: cs) = digitsVal base d cs := by
      simp [digitsVal, hd]
    rw [this]

/-- Witness for C7: hex `12345` (mathematically 0x12345 > 0xFFFF) parses
to 0x2345 = 9029 with nothing left over. -/
theorem c7_witness :
    parseNum 16 ("src:1") (['1', '2', '3', '4', '5'] ++ []) =
      some (.ok (9029, [])) := by
  have h := c7_parse_num_wraps 16 ("src:1") ['1', '2', '3', '4', '5'] []
    (by norm_num) (by simp) (by decide) (by simp)
  rw [h]
  rfl

/-- C8: conditional assembly.  (1) While the top of the if-stack is
`false`, a line whose action is not if-affiliated (or that has no action)
is skipped: pass 1 returns with the state untouched, the line is not
retained, and no bytes can come from it in pass 2.  (2) `.else` inverts
the top of the stack, (3) `.endif` pops it, (4) `.if` pushes
`condition ≠ 0` — so nesting pairs up in LIFO order — and (5) the §8.5
nested-conditional program assembles to exactly the bytes
`04 05 06 07 08 09`. -/
theorem c8_conditional_assembly :
    (∀ (asm : Asm) (p : ParsedLine),
      asm.if_stack.head?.getD true = false →
      (match p.action with
       | some a => a.is_if_affiliated = false
       | none => True) →
      pass1Parsed asm p = some (asm, none)) ∧
    (∀ (asm : Asm) (opn : Slice) (t : Bool) (rest : List Bool),
      asm.if_stack = t :: rest →
      (PseudoOp.mk opn ".else" []).pass1 none asm =
        some ({ asm with if_stack := (!t) :: rest }, .ok 0)) ∧
    (∀ (asm : Asm) (opn : Slice) (t : Bool) (rest : List Bool),
      asm.if_stack = t :: rest →
      (PseudoOp.mk opn ".endif" []).pass1 none asm =
        some ({ asm with if_stack := rest }, .ok 0)) ∧
    (∀ (asm : Asm) (opn : Slice) (cond : ExprNode) (v : Nat),
      cond.eval asm.symval = some (.ok v) →
      (PseudoOp.mk opn ".if" [cond]).pass1 none asm =
        some ({ asm with if_stack := decide (v ≠ 0) :: asm.if_stack }, .ok 0)) ∧
    assembleParsed prog85 = some [4, 5, 6, 7, 8, 9] := by
  refine ⟨?_, ?_, ?_, ?_, by decide⟩
  · intro asm p h1 h2
    have hg : gatedOut asm p = true := by
      unfold gatedOut
      rw [h1]
      cases hact : p.action with
      | none => rfl
      | some a =>
        simp only [hact] at h2
        simp [h2]
    simp [pass1Parsed, hg]
  · intro asm opn t rest hstack
    simp [PseudoOp.pass1, hstack]
  · intro asm opn t rest hstack
    simp [PseudoOp.pass1, hstack]
  · intro asm opn cond v heval
    simp [PseudoOp.pass1, heval]

/-- A pass-1 state whose if-stack top is `false` (inside a false branch). -/
def asmGated : Asm := { Asm.new with pass := .Pass1, if_stack := [false] }

/-- A `.byte 1` line (not if-affiliated). -/
def lineByte1 : ParsedLine :=
  { label := none,
    action := some (.pseudo (mkPseudo ".BYTE" ".byte" 1 [.Num 1 (mkSlice "1" 1)])),
    comment := none }

/-- Witness for C8 at concrete inputs: the gated `.byte` line is skipped
untouched; `.else`, `.endif` and `.if 0` manipulate the concrete stack
`[false, true]` as claimed. -/
theorem c8_witness :
    pass1Parsed asmGated lineByte1 = some (asmGated, none) ∧
    (PseudoOp.mk slA ".else" []).pass1 none asmGated =
      some ({ asmGated with if_stack := [true] }, .ok 0) ∧
    (PseudoOp.mk slA ".endif" []).pass1 none asmGated =
      some ({ asmGated with if_stack := [] }, .ok 0) ∧
    (PseudoOp.mk slA ".if" [.Num 0 slA]).pass1 none asmGated =
      some ({ asmGated with if_stack := [false, false] }, .ok 0) := by
  have h := c8_conditional_assembly
  refine ⟨h.1 asmGated lineByte1 (by decide)
    (by exact (by decide :
      (Action.pseudo (mkPseudo ".BYTE" ".byte" 1 [.Num 1 (mkSlice "1" 1)])).is_if_affiliated
        = false)), ?_, ?_, ?_⟩
  · exact h.2.1 asmGated slA false [] rfl
  · exact h.2.2.1 asmGated slA false [] rfl
  · exact h.2.2.2.1 asmGated slA (.Num 0 slA) 0 rfl

/-- A pass-1 state in the middle of accumulating a documentation comment. -/
def asmBuilding : Asm := { Asm.new with pass := .Pass1, building_comment := some ("x\n") }

/-- A purely blank parsed line: no label, no action, no comment. -/
def blankLine : ParsedLine := { label := none, action := none, comment := none }

/-- C9, counterexample: a purely blank line does *not* leave
`building_comment` unchanged — processing it resets the accumulator from
`some "x\n"` to `none` (the repository's own
`test_reset_building_comment` relies on this reset). -/
theorem c9_counterexample :
    asmBuilding.building_comment = some ("x\n") ∧
    (pass1Parsed asmBuilding blankLine).map (fun r => r.1.building_comment)
      = some none := by
  refine ⟨rfl, by decide⟩

/-- C9, amended: during pass 1 (on a line that is not suppressed by the
if-stack), a comment-only line appends the comment plus a newline to
`building_comment`; a line with a label or an action that processes
without error resets `building_comment` to empty; and a purely blank line
*also* resets it — the accumulator survives only across consecutive
comment-only lines. -/
theorem c9_amended_building_comment :
    (∀ (asm : Asm) (p : ParsedLine) (c : String),
      asm.if_stack.head?.getD true = true →
      p.label = none → p.action = none → p.filter_comment = some c →
      (pass1Parsed asm p).map (fun r => r.1.building_comment) =
        some (some ((asm.building_comment.getD "") ++ c ++ "\n"))) ∧
    (∀ (asm : Asm) (p : ParsedLine),
      asm.if_stack.head?.getD true = true →
      p.label = none → p.action = none → p.filter_comment = none →
      (pass1Parsed asm p).map (fun r => r.1.building_comment) = some none) ∧
    (∀ (asm : Asm) (p : ParsedLine) (asm1 : Asm),
      asm.if_stack.head?.getD true = true →
      (p.label.isSome || p.action.isSome) = true →
      pass1Parsed asm p = some (asm1, none) →
      asm1.building_comment = none) := by
  refine ⟨?_, ?_, ?_⟩
  · intro asm p c htop hl ha hc
    have hg : gatedOut asm p = false := by
      simp [gatedOut, htop]
    simp [pass1Parsed, hg, hl, ha, hc]
  · intro asm p htop hl ha hc
    have hg : gatedOut asm p = false := by
      simp [gatedOut, htop]
    simp [pass1Parsed, hg, hl, ha, hc]
  · intro asm p asm1 htop hla h
    have hg : gatedOut asm p = false := by
      simp [gatedOut, htop]
    simp only [pass1Parsed, hg, Bool.false_eq_true, if_false] at h
    repeat' split at h
    any_goals simp_all
    all_goals rw [← h]

/-- A label-only parsed line. -/
def lineLabelOnly : ParsedLine :=
  { label := some (mkSlice "bar" 3), action := none, comment := none }

/-- A comment-only parsed line (`; hello`). -/
def lineCommentOnly : ParsedLine :=
  { label := none, action := none, comment := some (mkSlice ("; hello") 4) }

/-- Witness for the amended C9 at concrete lines: the comment-only line
extends the accumulator, the blank line and a label-only line clear it. -/
theorem c9_witness :
    (pass1Parsed asmBuilding lineCommentOnly).map (fun r => r.1.building_comment) =
      some (some ("x\nhello\n")) ∧
    (pass1Parsed asmBuilding blankLine).map (fun r => r.1.building_comment) = some none ∧
    (pass1Parsed asmBuilding lineLabelOnly).map (fun r => r.1.building_comment) =
      some none := by
  have h := c9_amended_building_comment
  refine ⟨?_, ?_, ?_⟩
  · have h1 := h.1 asmBuilding lineCommentOnly ("hello") rfl rfl rfl (by decide)
    rw [h1]
    rfl
  · exact h.2.1 asmBuilding blankLine rfl rfl rfl rfl
  · rcases hds : pass1Parsed asmBuilding lineLabelOnly with - | ⟨a1, err⟩
    · exact Option.noConfusion hds
    · have herr : err = none := by
        have hcomp : pass1Parsed asmBuilding lineLabelOnly =
            some (a1, err) := hds
        have : (pass1Parsed asmBuilding lineLabelOnly).map (fun r => r.2) =
            some none := by decide
        rw [hcomp] at this
        injection this
      subst herr
      have h3 := h.2.2 asmBuilding lineLabelOnly a1 rfl (by decide) hds
      simp [h3]

end Pop65
